import Mathlib

/-!
# Verification of the BSCSE course-planner selection engine

Shallow embedding of the `CoursePlanner` class from `src/main.js`.

The planner's state is the catalog (`courses`, the constructor's
`coursesData` argument), the set of selected course codes
(`selectedCourses`, a JS `Set`, modelled as a duplicate-free list in
insertion order), the user-configurable caps (`maxCredits`,
`maxCourses`, defaults 14 and 8), and the elective trail lock
(`electiveTrailSelections`).

Modelling conventions:
* A JS `Set<string>` is a `List String` without duplicates; `Set.add`
  appends when absent, `Set.delete` filters, `Set.size` is the length.
* `string.includes(sub)` is `strIncludes`, a direct substring scan.
* JS truthiness on the trail fields (`null` vs a category string) is
  `Option.isNone`/`isSome`; the engine only ever stores non-empty
  category strings, so JS falsiness of `""` never arises.
* All functions are total, mirroring the fact that no engine operation
  throws for any input state.
-/

/-- A catalog course record (fields as in `courses.json` entries used by
`main.js`). `ctype` stands for the JS field `type`. -/
structure Course where
  code : String
  name : String
  credits : Nat
  ctype : String
  category : String
  prerequisites : List String
  corequisites : List String
  deriving DecidableEq, Repr

/-- The `electiveTrailSelections` object: `{ firstTrail, thirdTrail }`,
each a category string or `null`. -/
structure TrailSelections where
  firstTrail : Option String
  thirdTrail : Option String
  deriving DecidableEq, Repr

/-- The mutable state of a `CoursePlanner` instance (the parts the
selection engine reads and writes; DOM/theme/filter-widget fields are
presentation-only and omitted). -/
structure PlannerState where
  courses : List Course
  selectedCourses : List String
  maxCredits : Nat
  maxCourses : Nat
  electiveTrailSelections : TrailSelections
  deriving DecidableEq, Repr

/-- `pat.isPrefixOf`-based substring scan over char lists. -/
def hasSub (pat : List Char) : List Char → Bool
  | [] => pat.isEmpty
  | c :: rest => pat.isPrefixOf (c :: rest) || hasSub pat rest

/-- JS `s.includes(pat)`. -/
def strIncludes (s pat : String) : Bool := hasSub pat.toList s.toList

/-- JS `this.courses.find(c => c.code === code)`. -/
def findCourse (courses : List Course) (code : String) : Option Course :=
  courses.find? (fun c => c.code == code)

/-- JS `Set.add`: append the element unless already present (insertion
order, no duplicates). -/
def setAdd (sel : List String) (x : String) : List String :=
  if x ∈ sel then sel else sel ++ [x]

/-- JS `Set.delete`: remove the element. -/
def setDelete (sel : List String) (x : String) : List String :=
  sel.filter (fun y => y ≠ x)

/-- The static `this.alternativeGroups` table from the constructor. -/
def alternativeGroups : List (List String) :=
  [["POL101", "POL104"],
   ["ECO101", "ECO104"],
   ["SOC101", "ANT101", "ENV203"]]

/-- The accumulator body of `getSelectedCredits()`:
`if (course) total += course.credits`. -/
def creditTally (courses : List Course) (total : Nat) (code : String) : Nat :=
  match findCourse courses code with
  | some course => total + course.credits
  | none => total

/-- `getSelectedCredits()`: fold over the selected codes, adding the
credits of each code that resolves in the catalog (unresolvable codes
contribute nothing). -/
def getSelectedCredits (st : PlannerState) : Nat :=
  st.selectedCourses.foldl (creditTally st.courses) 0

/-- The credits a single selected code contributes to
`getSelectedCredits` (0 when the code has no catalog entry). -/
def creditOf (courses : List Course) (code : String) : Nat :=
  match findCourse courses code with
  | some course => course.credits
  | none => 0

/-- `getSelectedCourseCount()`: `this.selectedCourses.size`. -/
def getSelectedCourseCount (st : PlannerState) : Nat :=
  st.selectedCourses.length

/-- `wouldViolateAlternatives(courseCode)`: find the alternative group
containing the code; if one exists, true iff some *other* member of
that group is already selected. -/
def wouldViolateAlternatives (st : PlannerState) (courseCode : String) : Bool :=
  match alternativeGroups.find? (fun g => decide (courseCode ∈ g)) with
  | some group =>
      group.any (fun altCode => decide (altCode ≠ courseCode ∧ altCode ∈ st.selectedCourses))
  | none => false

/-- `isCourseAvailable(course)`: the four sequential rejection checks,
otherwise true. -/
def isCourseAvailable (st : PlannerState) (course : Course) : Bool :=
  if course.code ∈ st.selectedCourses then false
  else if st.maxCredits < getSelectedCredits st + course.credits then false
  else if st.maxCourses < getSelectedCourseCount st + 1 then false
  else if wouldViolateAlternatives st course.code = true then false
  else true

/-- `getSelectedElectiveTrails().trailCourses`: the selected codes that
resolve to catalog courses whose category contains `'Trail'`. -/
def trailCourses (st : PlannerState) : List Course :=
  (st.selectedCourses.filterMap (fun code => findCourse st.courses code)).filter
    (fun course => strIncludes course.category "Trail")

/-- `getSelectedElectiveTrails().trailCounts[category]` (a missing key
reads as 0 wherever the JS `|| 0` guard applies). -/
def trailCounts (st : PlannerState) (category : String) : Nat :=
  ((trailCourses st).filter (fun c => decide (c.category = category))).length

/-- `getSelectedElectiveTrails().firstTrailCourses`:
`firstTrail ? (trailCounts[firstTrail] || 0) : 0`. -/
def firstTrailCourses (st : PlannerState) : Nat :=
  match st.electiveTrailSelections.firstTrail with
  | some t => trailCounts st t
  | none => 0

/-- `getSelectedElectiveTrails().thirdTrailCourses`:
`thirdTrail ? (trailCounts[thirdTrail] || 0) : 0`. -/
def thirdTrailCourses (st : PlannerState) : Nat :=
  match st.electiveTrailSelections.thirdTrail with
  | some t => trailCounts st t
  | none => 0

/-- One step of the corequisite auto-add loop in `addCourse`:
`if (!this.selectedCourses.has(coreq)) this.selectedCourses.add(coreq)`. -/
def addCoreqStep (sel : List String) (coreq : String) : List String :=
  if coreq ∈ sel then sel else sel ++ [coreq]

/-- `addCourse(courseCode)`. No-op when the code is not in the catalog.
The trail-lock transition reads the *pre-addition* counts (the JS code
computes `getSelectedElectiveTrails()` before mutating anything), then
all corequisites are added unconditionally, then the code itself. -/
def addCourse (st : PlannerState) (courseCode : String) : PlannerState :=
  match findCourse st.courses courseCode with
  | none => st
  | some course =>
    let ts := st.electiveTrailSelections
    let ts' :=
      if strIncludes course.category "Trail" then
        if firstTrailCourses st < 2 ∧ ts.firstTrail = none then
          { ts with firstTrail := some course.category }
        else if 2 ≤ firstTrailCourses st ∧ thirdTrailCourses st = 0 ∧ ts.thirdTrail = none then
          { ts with thirdTrail := some course.category }
        else ts
      else ts
    let sel1 := course.corequisites.foldl addCoreqStep st.selectedCourses
    { st with electiveTrailSelections := ts', selectedCourses := setAdd sel1 courseCode }

/-- Whether code `k` resolves to a catalog course listing `d` among its
corequisites — the body of the keeper scan in `removeCourse`, as a
standalone test. -/
def listsCoreq (courses : List Course) (k d : String) : Bool :=
  match findCourse courses k with
  | some ck => decide (d ∈ ck.corequisites)
  | none => false

/-- The keeper scan of `removeCourse`:
`Array.from(this.selectedCourses).some(code => code !== courseCode &&
the catalog course for code lists coreq among its corequisites)`. -/
def keeperExists (courses : List Course) (courseCode : String)
    (sel : List String) (coreq : String) : Bool :=
  sel.any (fun code =>
    if code = courseCode then false
    else
      match findCourse courses code with
      | some c => decide (coreq ∈ c.corequisites)
      | none => false)

/-- One step of the corequisite cleanup loop in `removeCourse`: a
selected corequisite is deleted unless some other currently selected
course also lists it. -/
def removeCoreqStep (courses : List Course) (courseCode : String)
    (sel : List String) (coreq : String) : List String :=
  if coreq ∈ sel then
    if keeperExists courses courseCode sel coreq then sel
    else setDelete sel coreq
  else sel

/-- `removeCourse(courseCode)`. No-op when the code is not in the
catalog. The trail reset condition in JS is
`trailCounts[category] - 1 <= 0`; a missing key gives `NaN - 1 <= 0`,
which is false, so the reset fires exactly when the pre-removal count
equals 1. Then the cleanup loop runs over the course's corequisites,
and finally the code itself is deleted. -/
def removeCourse (st : PlannerState) (courseCode : String) : PlannerState :=
  match findCourse st.courses courseCode with
  | none => st
  | some course =>
    let ts := st.electiveTrailSelections
    let ts' :=
      if strIncludes course.category "Trail" then
        { firstTrail :=
            if ts.firstTrail = some course.category ∧ trailCounts st course.category = 1
            then none else ts.firstTrail,
          thirdTrail :=
            if ts.thirdTrail = some course.category ∧ trailCounts st course.category = 1
            then none else ts.thirdTrail }
      else ts
    let sel1 := course.corequisites.foldl (removeCoreqStep st.courses courseCode) st.selectedCourses
    { st with electiveTrailSelections := ts', selectedCourses := setDelete sel1 courseCode }

/-- The search-term clause of the `filterCourses` predicate: with a
non-empty term, a case-insensitive substring match against code, name
or category. -/
def searchMatches (searchTerm : String) (course : Course) : Bool :=
  if searchTerm = "" then true
  else
    strIncludes course.code.toLower searchTerm.toLower ||
    strIncludes course.name.toLower searchTerm.toLower ||
    strIncludes course.category.toLower searchTerm.toLower

/-- The category clause of the `filterCourses` predicate. -/
def categoryMatches (categoryFilter : String) (course : Course) : Bool :=
  if categoryFilter = "" then true else decide (course.category = categoryFilter)

/-- The type clause of the `filterCourses` predicate. -/
def typeMatches (typeFilter : String) (course : Course) : Bool :=
  if typeFilter = "" then true else decide (course.ctype = typeFilter)

/-- The trail-lock gate of `filterCourses`: a trail course is excluded
when a first trail is locked, that trail is not yet complete (fewer
than 2 of its courses selected), and this course belongs to a
different trail. -/
def trailLockExcludes (st : PlannerState) (course : Course) : Bool :=
  if strIncludes course.category "Trail" then
    match st.electiveTrailSelections.firstTrail with
    | some ft => decide (firstTrailCourses st < 2) && decide (course.category ≠ ft)
    | none => false
  else false

/-- `filterCourses(courses, searchTerm, categoryFilter, typeFilter)`:
keep the courses passing all four clauses. -/
def filterCourses (st : PlannerState) (courses : List Course)
    (searchTerm categoryFilter typeFilter : String) : List Course :=
  courses.filter (fun course =>
    searchMatches searchTerm course &&
    categoryMatches categoryFilter course &&
    typeMatches typeFilter course &&
    !trailLockExcludes st course)

/-- A planner state with an empty selection and the given catalog and
caps (the constructor state, caps possibly user-configured afterwards
through the `maxCredits`/`maxCourses` inputs). -/
def emptyState (coursesData : List Course) (mc mk : Nat) : PlannerState :=
  { courses := coursesData
    selectedCourses := []
    maxCredits := mc
    maxCourses := mk
    electiveTrailSelections := { firstTrail := none, thirdTrail := none } }

/-- The constructor state with the default caps 14 and 8. -/
def initialState (coursesData : List Course) : PlannerState :=
  emptyState coursesData 14 8

/-! ## Gated call sequences

The presentation layer only calls `addCourse` on a course for which
`isCourseAvailable` just returned true.  The following reachability
predicates capture the call sequences the invariant claims range over.
-/

/-- States reachable from the empty state by `addCourse` calls, each
made on a catalog course for which `isCourseAvailable` returned true
immediately beforehand. -/
inductive GatedReach (cat : List Course) (mc mk : Nat) : PlannerState → Prop where
  | init : GatedReach cat mc mk (emptyState cat mc mk)
  | add (st : PlannerState) (course : Course) :
      GatedReach cat mc mk st →
      findCourse st.courses course.code = some course →
      isCourseAvailable st course = true →
      GatedReach cat mc mk (addCourse st course.code)

/-- Like `GatedReach`, but each added course also has all of its
corequisites already selected, so the unconditional corequisite
auto-add inserts nothing new. -/
inductive GatedReachNC (cat : List Course) (mc mk : Nat) : PlannerState → Prop where
  | init : GatedReachNC cat mc mk (emptyState cat mc mk)
  | add (st : PlannerState) (course : Course) :
      GatedReachNC cat mc mk st →
      findCourse st.courses course.code = some course →
      isCourseAvailable st course = true →
      (∀ d ∈ course.corequisites, d ∈ st.selectedCourses) →
      GatedReachNC cat mc mk (addCourse st course.code)

/-- States reachable by gated `addCourse` calls and arbitrary
`removeCourse` calls. -/
inductive GatedReachAR (cat : List Course) (mc mk : Nat) : PlannerState → Prop where
  | init : GatedReachAR cat mc mk (emptyState cat mc mk)
  | add (st : PlannerState) (course : Course) :
      GatedReachAR cat mc mk st →
      findCourse st.courses course.code = some course →
      isCourseAvailable st course = true →
      GatedReachAR cat mc mk (addCourse st course.code)
  | remove (st : PlannerState) (code : String) :
      GatedReachAR cat mc mk st →
      GatedReachAR cat mc mk (removeCourse st code)

/-- States reachable by gated `addCourse` calls whose corequisites are
already selected, and arbitrary `removeCourse` calls. -/
inductive GatedReachARNC (cat : List Course) (mc mk : Nat) : PlannerState → Prop where
  | init : GatedReachARNC cat mc mk (emptyState cat mc mk)
  | add (st : PlannerState) (course : Course) :
      GatedReachARNC cat mc mk st →
      findCourse st.courses course.code = some course →
      isCourseAvailable st course = true →
      (∀ d ∈ course.corequisites, d ∈ st.selectedCourses) →
      GatedReachARNC cat mc mk (addCourse st course.code)
  | remove (st : PlannerState) (code : String) :
      GatedReachARNC cat mc mk st →
      GatedReachARNC cat mc mk (removeCourse st code)

/-! ## Concrete catalogs used as test inputs -/

/-- A lecture course with a corequisite lab, as in Scenario B of the
spec, except that here the lab is heavy enough to break the credit cap. -/
def cse470 : Course :=
  { code := "CSE470", name := "Software Engineering", credits := 3, ctype := "lecture",
    category := "CSE Core", prerequisites := [], corequisites := ["CSE470L"] }

def cse470L : Course :=
  { code := "CSE470L", name := "Software Engineering Lab", credits := 12, ctype := "lab",
    category := "CSE Core", prerequisites := [], corequisites := [] }

def capCatalog : List Course := [cse470, cse470L]

/-- A POL101 variant that (adversarially) lists its own alternative
POL104 as a corequisite. -/
def pol101Coreq : Course :=
  { code := "POL101", name := "Political Science", credits := 3, ctype := "lecture",
    category := "University Core", prerequisites := [], corequisites := ["POL104"] }

def pol104Plain : Course :=
  { code := "POL104", name := "Politics", credits := 3, ctype := "lecture",
    category := "University Core", prerequisites := [], corequisites := [] }

def altCoreqCatalog : List Course := [pol101Coreq, pol104Plain]

/-- Scenario A catalog: `POL101` and `POL104`, 3 credits each, no
corequisites. -/
def pol101 : Course :=
  { code := "POL101", name := "Political Science", credits := 3, ctype := "lecture",
    category := "University Core", prerequisites := [], corequisites := [] }

def pol104 : Course :=
  { code := "POL104", name := "Politics", credits := 3, ctype := "lecture",
    category := "University Core", prerequisites := [], corequisites := [] }

def polCatalog : List Course := [pol101, pol104]

/-- Catalog for the corequisite-cleanup counterexample: `A` has
corequisites `E` and `D` (in that order), and `D` itself lists `E`. -/
def courseA5 : Course :=
  { code := "A", name := "A", credits := 3, ctype := "lecture",
    category := "CSE Core", prerequisites := [], corequisites := ["E", "D"] }

def courseD5 : Course :=
  { code := "D", name := "D", credits := 1, ctype := "lab",
    category := "CSE Core", prerequisites := [], corequisites := ["E"] }

def courseE5 : Course :=
  { code := "E", name := "E", credits := 1, ctype := "lab",
    category := "CSE Core", prerequisites := [], corequisites := [] }

def cascadeCatalog : List Course := [courseA5, courseD5, courseE5]

/-- Catalog where two courses (`B` and `C`) share the corequisite `D`. -/
def courseB9 : Course :=
  { code := "B", name := "B", credits := 3, ctype := "lecture",
    category := "CSE Core", prerequisites := [], corequisites := ["D"] }

def courseC9 : Course :=
  { code := "C", name := "C", credits := 3, ctype := "lecture",
    category := "CSE Core", prerequisites := [], corequisites := ["D"] }

def courseD9 : Course :=
  { code := "D", name := "D", credits := 1, ctype := "lab",
    category := "CSE Core", prerequisites := [], corequisites := [] }

def sharedCoreqCatalog : List Course := [courseB9, courseC9, courseD9]

/-- A trail course of category `"X Trail"`. -/
def trailX (c : String) : Course :=
  { code := c, name := c, credits := 3, ctype := "lecture",
    category := "X Trail", prerequisites := [], corequisites := [] }

/-- A non-trail course whose corequisites are two `"X Trail"` courses;
adding it injects trail courses without running the trail-lock
transition. -/
def courseN6 : Course :=
  { code := "N", name := "N", credits := 3, ctype := "lecture",
    category := "CSE Core", prerequisites := [], corequisites := ["T2", "T3"] }

def trailCatalog : List Course := [trailX "T1", trailX "T2", trailX "T3", courseN6, trailX "T4"]

/-- A reachable state with `firstTrail = "X Trail"`, three selected
`"X Trail"` courses, and `thirdTrail` still null: add `T1`, then add
`N`, whose corequisites `T2`, `T3` bypass the trail transition. -/
def threeTrailSt : PlannerState := addCourse (addCourse (initialState trailCatalog) "T1") "N"

/-- Scenario C catalog: two AI-trail courses and one Networks-trail
course, 3 credits each. -/
def aiTrail (c : String) : Course :=
  { code := c, name := c, credits := 3, ctype := "lecture",
    category := "Artificial Intelligence Trail", prerequisites := [], corequisites := [] }

def netTrail : Course :=
  { code := "NET1", name := "Networks", credits := 3, ctype := "lecture",
    category := "Networks Trail", prerequisites := [], corequisites := [] }

def scenarioCCatalog : List Course := [aiTrail "AI1", aiTrail "AI2", netTrail]

/-- Scenario C state after adding the two AI-trail courses. -/
def scenarioCSt : PlannerState := addCourse (addCourse (initialState scenarioCCatalog) "AI1") "AI2"

/-- A course with a corequisite code that has no catalog entry. -/
def courseDangling : Course :=
  { code := "X", name := "X", credits := 3, ctype := "lecture",
    category := "CSE Core", prerequisites := [], corequisites := ["GHOST"] }

def danglingCatalog : List Course := [courseDangling]

/-- Catalog for the remove-without-membership witness: `P` lists `Q`
as corequisite, `Q` is a plain course. -/
def courseP10 : Course :=
  { code := "P", name := "P", credits := 3, ctype := "lecture",
    category := "CSE Core", prerequisites := [], corequisites := ["Q"] }

def courseQ10 : Course :=
  { code := "Q", name := "Q", credits := 1, ctype := "lab",
    category := "CSE Core", prerequisites := [], corequisites := [] }

def pqCatalog : List Course := [courseP10, courseQ10]

/-! ## Basic lemmas about the embedding -/

theorem creditTally_foldl (courses : List Course) :
    ∀ (l : List String) (n : Nat),
      l.foldl (creditTally courses) n = n + (l.map (creditOf courses)).sum := by
  intro l
  induction l with
  | nil => intro n; simp
  | cons a t ih =>
      intro n
      simp only [List.foldl_cons, List.map_cons, List.sum_cons, ih]
      unfold creditTally creditOf
      cases findCourse courses a <;> simp [Nat.add_assoc]

theorem getSelectedCredits_eq (st : PlannerState) :
    getSelectedCredits st = (st.selectedCourses.map (creditOf st.courses)).sum := by
  unfold getSelectedCredits
  rw [creditTally_foldl, Nat.zero_add]

theorem mem_setAdd (sel : List String) (x y : String) :
    y ∈ setAdd sel x ↔ y ∈ sel ∨ y = x := by
  unfold setAdd
  split_ifs with h
  · constructor
    · exact fun hy => Or.inl hy
    · rintro (hy | rfl)
      exacts [hy, h]
  · simp [List.mem_append]

theorem mem_setDelete (sel : List String) (x y : String) :
    y ∈ setDelete sel x ↔ y ∈ sel ∧ y ≠ x := by
  unfold setDelete
  simp [List.mem_filter]

theorem mem_addCoreqStep (sel : List String) (c y : String) :
    y ∈ addCoreqStep sel c ↔ y ∈ sel ∨ y = c := by
  unfold addCoreqStep
  split_ifs with h
  · constructor
    · exact fun hy => Or.inl hy
    · rintro (hy | rfl)
      exacts [hy, h]
  · simp [List.mem_append]

theorem mem_coreqFold (l : List String) :
    ∀ (sel : List String) (y : String),
      y ∈ l.foldl addCoreqStep sel ↔ y ∈ sel ∨ y ∈ l := by
  induction l with
  | nil => intro sel y; simp
  | cons c t ih =>
      intro sel y
      simp only [List.foldl_cons, ih, mem_addCoreqStep, List.mem_cons]
      tauto

theorem coreqFold_eq_of_all_mem (l : List String) :
    ∀ (sel : List String), (∀ d ∈ l, d ∈ sel) → l.foldl addCoreqStep sel = sel := by
  induction l with
  | nil => intro sel _; rfl
  | cons c t ih =>
      intro sel h
      have hc : c ∈ sel := h c (by simp)
      simp only [List.foldl_cons, addCoreqStep, if_pos hc]
      exact ih sel fun d hd => h d (by simp [hd])

theorem addCourse_courses (st : PlannerState) (code : String) :
    (addCourse st code).courses = st.courses := by
  unfold addCourse
  split <;> rfl

theorem addCourse_maxCredits (st : PlannerState) (code : String) :
    (addCourse st code).maxCredits = st.maxCredits := by
  unfold addCourse
  split <;> rfl

theorem addCourse_maxCourses (st : PlannerState) (code : String) :
    (addCourse st code).maxCourses = st.maxCourses := by
  unfold addCourse
  split <;> rfl

theorem addCourse_sel (st : PlannerState) (code : String) (course : Course)
    (hf : findCourse st.courses code = some course) :
    (addCourse st code).selectedCourses =
      setAdd (course.corequisites.foldl addCoreqStep st.selectedCourses) code := by
  unfold addCourse
  rw [hf]

theorem removeCourse_courses (st : PlannerState) (code : String) :
    (removeCourse st code).courses = st.courses := by
  unfold removeCourse
  split <;> rfl

theorem removeCourse_sel (st : PlannerState) (code : String) (course : Course)
    (hf : findCourse st.courses code = some course) :
    (removeCourse st code).selectedCourses =
      setDelete (course.corequisites.foldl (removeCoreqStep st.courses code) st.selectedCourses)
        code := by
  unfold removeCourse
  rw [hf]

theorem isCourseAvailable_eq_true_iff (st : PlannerState) (course : Course) :
    isCourseAvailable st course = true ↔
      course.code ∉ st.selectedCourses ∧
      getSelectedCredits st + course.credits ≤ st.maxCredits ∧
      getSelectedCourseCount st + 1 ≤ st.maxCourses ∧
      wouldViolateAlternatives st course.code = false := by
  unfold isCourseAvailable
  split_ifs with h1 h2 h3 h4
  · simp [h1]
  · have hcr : ¬(getSelectedCredits st + course.credits ≤ st.maxCredits) := by omega
    simp [hcr]
  · have hct : ¬(getSelectedCourseCount st + 1 ≤ st.maxCourses) := by omega
    simp [hct]
  · simp [h4]
  · have hcr : getSelectedCredits st + course.credits ≤ st.maxCredits := by omega
    have hct : getSelectedCourseCount st + 1 ≤ st.maxCourses := by omega
    rw [Bool.not_eq_true] at h4
    simp [h1, hcr, hct, h4]

/-! ## The alternative-group table -/

theorem altGroups_disjoint :
    ∀ g₁ ∈ alternativeGroups, ∀ g₂ ∈ alternativeGroups,
      ∀ c : String, c ∈ g₁ → c ∈ g₂ → g₁ = g₂ := by
  intro g₁ h₁ g₂ h₂ c hc₁ hc₂
  simp only [alternativeGroups, List.mem_cons, List.not_mem_nil, or_false] at h₁ h₂
  rcases h₁ with rfl | rfl | rfl <;> rcases h₂ with rfl | rfl | rfl <;> simp_all <;>
    casesm* _ ∨ _ <;> simp_all

theorem wouldViolate_eq_true_iff (st : PlannerState) (cc : String) :
    wouldViolateAlternatives st cc = true ↔
      ∃ g ∈ alternativeGroups, cc ∈ g ∧
        ∃ alt ∈ g, alt ≠ cc ∧ alt ∈ st.selectedCourses := by
  unfold wouldViolateAlternatives
  cases hf : alternativeGroups.find? (fun g => decide (cc ∈ g)) with
  | none =>
      simp only [Bool.false_eq_true, false_iff]
      rintro ⟨g, hg, hcg, -⟩
      have hnone := List.find?_eq_none.mp hf g hg
      simp only [decide_eq_true_eq] at hnone
      exact hnone hcg
  | some g₀ =>
      have hmem := List.mem_of_find?_eq_some hf
      have hp : cc ∈ g₀ := by
        have := List.find?_some hf
        simpa using this
      simp only [List.any_eq_true, decide_eq_true_eq]
      constructor
      · rintro ⟨alt, haltg, hne, hsel⟩
        exact ⟨g₀, hmem, hp, alt, haltg, hne, hsel⟩
      · rintro ⟨g, hg, hcg, alt, haltg, hne, hsel⟩
        have hgg : g = g₀ := altGroups_disjoint g hg g₀ hmem cc hcg hp
        subst hgg
        exact ⟨alt, haltg, hne, hsel⟩

/-! ## The corequisite-cleanup loop of `removeCourse` -/

theorem keeperExists_eq_true_iff (cs : List Course) (cc : String)
    (sel : List String) (d : String) :
    keeperExists cs cc sel d = true ↔
      ∃ k ∈ sel, k ≠ cc ∧ ∃ ck, findCourse cs k = some ck ∧ d ∈ ck.corequisites := by
  unfold keeperExists
  rw [List.any_eq_true]
  constructor
  · rintro ⟨k, hk, hbody⟩
    by_cases hkc : k = cc
    · rw [if_pos hkc] at hbody
      exact absurd hbody (by simp)
    · rw [if_neg hkc] at hbody
      cases hfk : findCourse cs k with
      | none => rw [hfk] at hbody; exact absurd hbody (by simp)
      | some ck =>
          rw [hfk] at hbody
          rw [decide_eq_true_eq] at hbody
          exact ⟨k, hk, hkc, ck, hfk, hbody⟩
  · rintro ⟨k, hk, hkc, ck, hfk, hmem⟩
    refine ⟨k, hk, ?_⟩
    rw [if_neg hkc, hfk, decide_eq_true_eq]
    exact hmem

theorem keeperExists_mono (cs : List Course) (cc : String)
    (sel sel' : List String) (d : String)
    (hsub : ∀ x ∈ sel', x ∈ sel)
    (h : keeperExists cs cc sel' d = true) :
    keeperExists cs cc sel d = true := by
  rw [keeperExists_eq_true_iff] at h ⊢
  obtain ⟨k, hk, hkc, ck, hfk, hmem⟩ := h
  exact ⟨k, hsub k hk, hkc, ck, hfk, hmem⟩

theorem mem_of_mem_removeCoreqStep (cs : List Course) (cc : String)
    (sel : List String) (c y : String)
    (h : y ∈ removeCoreqStep cs cc sel c) : y ∈ sel := by
  unfold removeCoreqStep at h
  split_ifs at h
  · exact h
  · exact ((mem_setDelete _ _ _).mp h).1
  · exact h

theorem mem_removeCoreqStep_of_ne (cs : List Course) (cc : String)
    (sel : List String) (c y : String) (hne : y ≠ c) :
    y ∈ removeCoreqStep cs cc sel c ↔ y ∈ sel := by
  unfold removeCoreqStep
  split_ifs
  · exact Iff.rfl
  · rw [mem_setDelete]
    exact ⟨fun h => h.1, fun h => ⟨h, hne⟩⟩
  · exact Iff.rfl

theorem cleanupFold_sub (cs : List Course) (cc : String) (l : List String) :
    ∀ (sel : List String) (y : String),
      y ∈ l.foldl (removeCoreqStep cs cc) sel → y ∈ sel := by
  induction l with
  | nil => intro sel y h; exact h
  | cons c t ih =>
      intro sel y h
      rw [List.foldl_cons] at h
      exact mem_of_mem_removeCoreqStep cs cc sel c y (ih _ y h)

theorem mem_cleanupFold_of_not_mem (cs : List Course) (cc : String) (l : List String) :
    ∀ (sel : List String) (y : String), y ∉ l →
      (y ∈ l.foldl (removeCoreqStep cs cc) sel ↔ y ∈ sel) := by
  induction l with
  | nil => intro sel y _; exact Iff.rfl
  | cons c t ih =>
      intro sel y hy
      have hyc : y ≠ c := fun h => hy (h ▸ List.mem_cons_self c t)
      have hyt : y ∉ t := fun h => hy (List.mem_cons_of_mem c h)
      rw [List.foldl_cons, ih _ y hyt, mem_removeCoreqStep_of_ne cs cc sel c y hyc]

theorem cleanupFold_not_mem_of_no_keeper (cs : List Course) (cc : String) (l : List String) :
    ∀ (sel : List String) (d : String), d ∈ l →
      keeperExists cs cc sel d = false →
      d ∉ l.foldl (removeCoreqStep cs cc) sel := by
  induction l with
  | nil => intro sel d hd _; exact absurd hd (List.not_mem_nil d)
  | cons c t ih =>
      intro sel d hd hk
      rw [List.foldl_cons]
      by_cases hdc : d = c
      · subst hdc
        have hstep : d ∉ removeCoreqStep cs cc sel d := by
          unfold removeCoreqStep
          split_ifs with h1 h2
          · rw [h2] at hk; exact absurd hk (by simp)
          · rw [mem_setDelete]; rintro ⟨-, h⟩; exact h rfl
          · exact h1
        exact fun hmem => hstep (cleanupFold_sub cs cc t _ d hmem)
      · have hdt : d ∈ t := (List.mem_cons.mp hd).resolve_left hdc
        have hk' : keeperExists cs cc (removeCoreqStep cs cc sel c) d = false := by
          by_contra hne
          rw [Bool.not_eq_false] at hne
          have := keeperExists_mono cs cc sel _ d
            (fun x hx => mem_of_mem_removeCoreqStep cs cc sel c x hx) hne
          rw [this] at hk
          exact absurd hk (by simp)
        exact ih _ d hdt hk'

theorem cleanupFold_mem_iff (cs : List Course) (cc : String) :
    ∀ (l sel : List String),
      (∀ d ∈ l, ∀ k ∈ sel, k ≠ cc → ∀ ck, findCourse cs k = some ck →
        d ∈ ck.corequisites → k ∉ l) →
      ∀ x, x ∈ l.foldl (removeCoreqStep cs cc) sel ↔
        (x ∈ sel ∧ (x ∈ l → keeperExists cs cc sel x = true)) := by
  intro l
  induction l with
  | nil =>
      intro sel _ x
      simp
  | cons c t ih =>
      intro sel Hk x
      rw [List.foldl_cons]
      by_cases hcsel : c ∈ sel
      · by_cases hkc : keeperExists cs cc sel c = true
        · have hstep : removeCoreqStep cs cc sel c = sel := by
            unfold removeCoreqStep
            rw [if_pos hcsel, if_pos hkc]
          rw [hstep]
          have Hk' : ∀ d ∈ t, ∀ k ∈ sel, k ≠ cc → ∀ ck, findCourse cs k = some ck →
              d ∈ ck.corequisites → k ∉ t :=
            fun d hd k hks hne ck hf hm hkt =>
              Hk d (List.mem_cons_of_mem c hd) k hks hne ck hf hm (List.mem_cons_of_mem c hkt)
          rw [ih sel Hk' x]
          constructor
          · rintro ⟨hxs, himp⟩
            refine ⟨hxs, fun hxm => ?_⟩
            rcases List.mem_cons.mp hxm with rfl | hxt
            · exact hkc
            · exact himp hxt
          · rintro ⟨hxs, himp⟩
            exact ⟨hxs, fun hxt => himp (List.mem_cons_of_mem c hxt)⟩
        · have hkcF : keeperExists cs cc sel c = false := by
            rwa [Bool.not_eq_true] at hkc
          have hstep : removeCoreqStep cs cc sel c = setDelete sel c := by
            unfold removeCoreqStep
            rw [if_pos hcsel, hkcF]
            simp
          rw [hstep]
          have Hk' : ∀ d ∈ t, ∀ k ∈ setDelete sel c, k ≠ cc → ∀ ck, findCourse cs k = some ck →
              d ∈ ck.corequisites → k ∉ t :=
            fun d hd k hks hne ck hf hm hkt =>
              Hk d (List.mem_cons_of_mem c hd) k ((mem_setDelete sel c k).mp hks).1 hne ck hf hm
                (List.mem_cons_of_mem c hkt)
          rw [ih (setDelete sel c) Hk' x]
          have hkstab : ∀ y ∈ t,
              (keeperExists cs cc (setDelete sel c) y = true ↔ keeperExists cs cc sel y = true) := by
            intro y hy
            rw [keeperExists_eq_true_iff, keeperExists_eq_true_iff]
            constructor
            · rintro ⟨k, hks, hne, ck, hf, hm⟩
              exact ⟨k, ((mem_setDelete sel c k).mp hks).1, hne, ck, hf, hm⟩
            · rintro ⟨k, hks, hne, ck, hf, hm⟩
              have hknot : k ∉ c :: t :=
                Hk y (List.mem_cons_of_mem c hy) k hks hne ck hf hm
              have hkne : k ≠ c := fun h => hknot (h ▸ List.mem_cons_self c t)
              exact ⟨k, (mem_setDelete sel c k).mpr ⟨hks, hkne⟩, hne, ck, hf, hm⟩
          by_cases hxc : x = c
          · subst hxc
            simp [mem_setDelete, hcsel, hkcF]
          · rw [mem_setDelete]
            constructor
            · rintro ⟨⟨hxs, -⟩, himp⟩
              refine ⟨hxs, fun hxm => ?_⟩
              rcases List.mem_cons.mp hxm with rfl | hxt
              · exact absurd rfl hxc
              · exact (hkstab x hxt).mp (himp hxt)
            · rintro ⟨hxs, himp⟩
              exact ⟨⟨hxs, hxc⟩,
                fun hxt => (hkstab x hxt).mpr (himp (List.mem_cons_of_mem c hxt))⟩
      · have hstep : removeCoreqStep cs cc sel c = sel := by
          unfold removeCoreqStep
          rw [if_neg hcsel]
        rw [hstep]
        have Hk' : ∀ d ∈ t, ∀ k ∈ sel, k ≠ cc → ∀ ck, findCourse cs k = some ck →
            d ∈ ck.corequisites → k ∉ t :=
          fun d hd k hks hne ck hf hm hkt =>
            Hk d (List.mem_cons_of_mem c hd) k hks hne ck hf hm (List.mem_cons_of_mem c hkt)
        rw [ih sel Hk' x]
        constructor
        · rintro ⟨hxs, himp⟩
          refine ⟨hxs, fun hxm => ?_⟩
          rcases List.mem_cons.mp hxm with rfl | hxt
          · exact absurd hxs hcsel
          · exact himp hxt
        · rintro ⟨hxs, himp⟩
          exact ⟨hxs, fun hxt => himp (List.mem_cons_of_mem c hxt)⟩

/-! ## The claims -/

/-- C2: for every course and every state, `isCourseAvailable` returns
false if and only if the course's code is already selected, or the
selected credit sum plus its credits exceeds `maxCredits`, or the
selected count plus one exceeds `maxCourses`, or some other member of
its alternative group is selected; in all other cases it returns true. -/
theorem claim2_isCourseAvailable_false_iff (st : PlannerState) (course : Course) :
    isCourseAvailable st course = false ↔
      (course.code ∈ st.selectedCourses ∨
       st.maxCredits < getSelectedCredits st + course.credits ∨
       st.maxCourses < getSelectedCourseCount st + 1 ∨
       ∃ g ∈ alternativeGroups, course.code ∈ g ∧
         ∃ alt ∈ g, alt ≠ course.code ∧ alt ∈ st.selectedCourses) := by
  rw [← Bool.not_eq_true, isCourseAvailable_eq_true_iff]
  simp only [not_and_or, not_not, not_le, Bool.not_eq_false, wouldViolate_eq_true_iff]

/-- C3: immediately after `addCourse(C.code)`, every code listed in
`C.corequisites` is selected.  The statement carries no availability,
credit-cap, course-count, or alternative-group hypothesis: the
corequisite auto-add runs unconditionally in every state. -/
theorem claim3_coreqs_added_unconditionally (st : PlannerState) (courseCode : String)
    (course : Course) (hf : findCourse st.courses courseCode = some course) :
    ∀ d ∈ course.corequisites, d ∈ (addCourse st courseCode).selectedCourses := by
  intro d hd
  rw [addCourse_sel st courseCode course hf, mem_setAdd, mem_coreqFold]
  exact Or.inl (Or.inr hd)

theorem claim3_witness : "E" ∈ (addCourse (initialState cascadeCatalog) "A").selectedCourses :=
  claim3_coreqs_added_unconditionally (initialState cascadeCatalog) "A" courseA5
    (by decide) "E" (by decide)

/-- C8: for a code with no matching catalog course, `addCourse` and
`removeCourse` leave the whole state unchanged (and, being total
functions, cannot fail). -/
theorem claim8_unknown_code_noop (st : PlannerState) (code : String)
    (h : ∀ c ∈ st.courses, c.code ≠ code) :
    addCourse st code = st ∧ removeCourse st code = st := by
  have hf : findCourse st.courses code = none := by
    unfold findCourse
    rw [List.find?_eq_none]
    intro c hc
    simpa using h c hc
  constructor
  · unfold addCourse; rw [hf]
  · unfold removeCourse; rw [hf]

theorem claim8_witness :
    addCourse (initialState polCatalog) "CSE999" = initialState polCatalog ∧
    removeCourse (initialState polCatalog) "CSE999" = initialState polCatalog :=
  claim8_unknown_code_noop (initialState polCatalog) "CSE999" (by decide)

/-- C1 (counterexample): one gated `addCourse` call from the empty
state, on course `CSE470` for which `isCourseAvailable` returns true,
ends with 15 selected credits against `maxCredits = 14`: the
unconditional corequisite auto-add (`CSE470L`, 12 credits) bypasses the
credit cap. -/
theorem claim1_counterexample :
    GatedReach capCatalog 14 8 (addCourse (emptyState capCatalog 14 8) "CSE470") ∧
    isCourseAvailable (emptyState capCatalog 14 8) cse470 = true ∧
    (addCourse (emptyState capCatalog 14 8) "CSE470").maxCredits = 14 ∧
    getSelectedCredits (addCourse (emptyState capCatalog 14 8) "CSE470") = 15 := by
  refine ⟨?_, by decide, by decide, by decide⟩
  exact GatedReach.add (emptyState capCatalog 14 8) cse470 GatedReach.init
    (by decide) (by decide)

/-- C1 (amended): starting from the empty state, for every sequence of
`addCourse` calls in which each call is made on a course for which
`isCourseAvailable` returned true immediately beforehand *and all of
whose corequisites are already selected*, after every call the selected
credit sum is at most `maxCredits` and the selected count is at most
`maxCourses`. -/
theorem claim1_amended_cap_invariant (cat : List Course) (mc mk : Nat) (st : PlannerState)
    (h : GatedReachNC cat mc mk st) :
    getSelectedCredits st ≤ st.maxCredits ∧
    getSelectedCourseCount st ≤ st.maxCourses := by
  induction h with
  | init => exact ⟨Nat.zero_le mc, Nat.zero_le mk⟩
  | add st course hreach hf hav hcoreq ih =>
      obtain ⟨hnm, hcr, hct, -⟩ := (isCourseAvailable_eq_true_iff st course).mp hav
      have hselEq : (addCourse st course.code).selectedCourses =
          st.selectedCourses ++ [course.code] := by
        rw [addCourse_sel st course.code course hf, coreqFold_eq_of_all_mem _ _ hcoreq]
        unfold setAdd
        rw [if_neg hnm]
      constructor
      · rw [addCourse_maxCredits]
        have hcredits : getSelectedCredits (addCourse st course.code) =
            getSelectedCredits st + course.credits := by
          rw [getSelectedCredits_eq, hselEq, addCourse_courses, List.map_append,
            List.sum_append, ← getSelectedCredits_eq]
          simp [creditOf, hf]
        rw [hcredits]
        exact hcr
      · rw [addCourse_maxCourses]
        unfold getSelectedCourseCount at hct ⊢
        rw [hselEq, List.length_append]
        simpa using hct

theorem claim1_witness :
    getSelectedCredits (addCourse (emptyState polCatalog 14 8) "POL101") ≤
      (addCourse (emptyState polCatalog 14 8) "POL101").maxCredits ∧
    getSelectedCourseCount (addCourse (emptyState polCatalog 14 8) "POL101") ≤
      (addCourse (emptyState polCatalog 14 8) "POL101").maxCourses :=
  claim1_amended_cap_invariant polCatalog 14 8 _
    (GatedReachNC.add (emptyState polCatalog 14 8) pol101 GatedReachNC.init
      (by decide) (by decide) (by decide))

theorem removeCourse_sel_sub (st : PlannerState) (code : String) :
    ∀ x ∈ (removeCourse st code).selectedCourses, x ∈ st.selectedCourses := by
  intro x hx
  cases hf : findCourse st.courses code with
  | none =>
      have hid : removeCourse st code = st := by unfold removeCourse; rw [hf]
      rwa [hid] at hx
  | some course =>
      rw [removeCourse_sel st code course hf] at hx
      exact cleanupFold_sub st.courses code course.corequisites st.selectedCourses x
        ((mem_setDelete _ _ _).mp hx).1

/-- C4 (counterexample): from the empty state, one gated `addCourse`
call on `POL101` — whose corequisite list (adversarially) contains its
own alternative `POL104` — leaves both members of the alternative group
`["POL101", "POL104"]` selected, because corequisite auto-add bypasses
the alternative-group check. -/
theorem claim4_counterexample :
    GatedReachAR altCoreqCatalog 14 8 (addCourse (emptyState altCoreqCatalog 14 8) "POL101") ∧
    ["POL101", "POL104"] ∈ alternativeGroups ∧
    "POL101" ∈ (addCourse (emptyState altCoreqCatalog 14 8) "POL101").selectedCourses ∧
    "POL104" ∈ (addCourse (emptyState altCoreqCatalog 14 8) "POL101").selectedCourses ∧
    ("POL101" : String) ≠ "POL104" := by
  refine ⟨?_, by decide, by decide, by decide, by decide⟩
  exact GatedReachAR.add (emptyState altCoreqCatalog 14 8) pol101Coreq GatedReachAR.init
    (by decide) (by decide)

/-- C4 (amended): in every state reachable from empty by gated
`addCourse` calls *on courses whose corequisites are already selected*
and by `removeCourse` calls, at most one member of each alternative
group is selected; in particular Scenario A holds: after adding
`POL101`, `isCourseAvailable(POL104)` is false, and after removing
`POL101` it is true again. -/
theorem claim4_amended_alternative_exclusivity :
    (∀ (cat : List Course) (mc mk : Nat) (st : PlannerState),
      GatedReachARNC cat mc mk st →
      ∀ g ∈ alternativeGroups, ∀ a ∈ g, ∀ b ∈ g,
        a ∈ st.selectedCourses → b ∈ st.selectedCourses → a = b) ∧
    ((addCourse (initialState polCatalog) "POL101").selectedCourses = ["POL101"] ∧
     isCourseAvailable (addCourse (initialState polCatalog) "POL101") pol104 = false ∧
     isCourseAvailable (removeCourse (addCourse (initialState polCatalog) "POL101") "POL101")
       pol104 = true) := by
  constructor
  · intro cat mc mk st h
    induction h with
    | init => intro g hg a ha b hb has hbs; exact absurd has (List.not_mem_nil a)
    | add st course hreach hf hav hcoreq ih =>
        intro g hg a ha b hb has hbs
        obtain ⟨-, -, -, hviol⟩ := (isCourseAvailable_eq_true_iff st course).mp hav
        have hselEq : (addCourse st course.code).selectedCourses =
            setAdd st.selectedCourses course.code := by
          rw [addCourse_sel st course.code course hf, coreqFold_eq_of_all_mem _ _ hcoreq]
        rw [hselEq, mem_setAdd] at has hbs
        rcases has with has | ha_eq
        · rcases hbs with hbs | hb_eq
          · exact ih g hg a ha b hb has hbs
          · subst hb_eq
            by_contra hne
            have hv : wouldViolateAlternatives st course.code = true := by
              rw [wouldViolate_eq_true_iff]
              exact ⟨g, hg, hb, a, ha, hne, has⟩
            exact absurd hv (by simp [hviol])
        · subst ha_eq
          rcases hbs with hbs | hb_eq
          · by_contra hne
            have hv : wouldViolateAlternatives st course.code = true := by
              rw [wouldViolate_eq_true_iff]
              exact ⟨g, hg, ha, b, hb, fun h => hne h.symm, hbs⟩
            exact absurd hv (by simp [hviol])
          · rw [hb_eq]
    | remove st code hreach ih =>
        intro g hg a ha b hb has hbs
        exact ih g hg a ha b hb (removeCourse_sel_sub st code a has)
          (removeCourse_sel_sub st code b hbs)
  · exact ⟨by decide, by decide, by decide⟩

theorem claim4_witness : ("POL101" : String) = "POL101" :=
  claim4_amended_alternative_exclusivity.1 polCatalog 14 8
    (addCourse (emptyState polCatalog 14 8) "POL101")
    (GatedReachARNC.add (emptyState polCatalog 14 8) pol101 GatedReachARNC.init
      (by decide) (by decide) (by decide))
    ["POL101", "POL104"] (by decide) "POL101" (by decide) "POL101" (by decide)
    (by decide) (by decide)

theorem listsCoreq_eq_true_iff (cs : List Course) (k d : String) :
    listsCoreq cs k d = true ↔
      ∃ ck, findCourse cs k = some ck ∧ d ∈ ck.corequisites := by
  unfold listsCoreq
  cases hfk : findCourse cs k <;> simp

/-- C5 (counterexample): in catalog `cascadeCatalog`, course `A` has
corequisites `[E, D]` and `D` itself lists `E`.  Removing `A` from the
state reached by adding `A` keeps `E` selected — during the cleanup
loop `E` was examined while its keeper `D` was still selected — yet
afterwards no still-selected course lists `E` as a corequisite, which
contradicts the claimed iff. -/
theorem claim5_counterexample :
    findCourse cascadeCatalog "A" = some courseA5 ∧
    "A" ∈ (addCourse (initialState cascadeCatalog) "A").selectedCourses ∧
    "E" ∈ courseA5.corequisites ∧
    "E" ∈ (addCourse (initialState cascadeCatalog) "A").selectedCourses ∧
    (removeCourse (addCourse (initialState cascadeCatalog) "A") "A").selectedCourses = ["E"] ∧
    "E" ∈ (removeCourse (addCourse (initialState cascadeCatalog) "A") "A").selectedCourses ∧
    (∀ k ∈ (removeCourse (addCourse (initialState cascadeCatalog) "A") "A").selectedCourses,
      listsCoreq cascadeCatalog k "E" = false) := by
  decide

/-- C5 (amended): after `removeCourse(C.code)` with `C.code` selected,
a selected corequisite `D` of `C` remains selected iff some other
still-selected course lists `D` among its corequisites — *provided no
corequisite of `C` resolves to a catalog course that itself lists a
corequisite of `C`* (without that proviso the cleanup loop's result
depends on its intermediate states, see the counterexample). -/
theorem claim5_amended_coreq_cleanup (st : PlannerState) (courseCode : String) (course : Course)
    (hf : findCourse st.courses courseCode = some course)
    (_hccsel : courseCode ∈ st.selectedCourses)
    (H : ∀ k ∈ course.corequisites, ∀ d ∈ course.corequisites,
      listsCoreq st.courses k d = false) :
    ∀ d ∈ course.corequisites, d ∈ st.selectedCourses →
      (d ∈ (removeCourse st courseCode).selectedCourses ↔
        ∃ k ∈ (removeCourse st courseCode).selectedCourses,
          ∃ ck, findCourse st.courses k = some ck ∧ d ∈ ck.corequisites) := by
  have H' : ∀ k ∈ course.corequisites, ∀ ck, findCourse st.courses k = some ck →
      ∀ d ∈ course.corequisites, d ∉ ck.corequisites := by
    intro k hk ck hfk d hd hmem
    have hfalse := H k hk d hd
    have htrue : listsCoreq st.courses k d = true :=
      (listsCoreq_eq_true_iff st.courses k d).mpr ⟨ck, hfk, hmem⟩
    rw [htrue] at hfalse
    exact absurd hfalse (by simp)
  have hccnot : courseCode ∉ course.corequisites := fun hcc =>
    H' courseCode hcc course hf courseCode hcc hcc
  have Hk : ∀ d ∈ course.corequisites, ∀ k ∈ st.selectedCourses, k ≠ courseCode →
      ∀ ck, findCourse st.courses k = some ck → d ∈ ck.corequisites →
        k ∉ course.corequisites := by
    intro d hd k _ _ ck hfk hmem hkin
    exact H' k hkin ck hfk d hd hmem
  intro d hd hdsel
  have hdne : d ≠ courseCode := fun h => hccnot (h ▸ hd)
  rw [removeCourse_sel st courseCode course hf]
  constructor
  · intro hdmem
    rw [mem_setDelete,
      cleanupFold_mem_iff st.courses courseCode course.corequisites st.selectedCourses Hk d]
      at hdmem
    obtain ⟨⟨-, himp⟩, -⟩ := hdmem
    have hkeep := himp hd
    rw [keeperExists_eq_true_iff] at hkeep
    obtain ⟨k, hks, hkne, ck, hfk, hmem⟩ := hkeep
    have hknotin : k ∉ course.corequisites := fun hkin => H' k hkin ck hfk d hd hmem
    refine ⟨k, ?_, ck, hfk, hmem⟩
    rw [mem_setDelete,
      cleanupFold_mem_iff st.courses courseCode course.corequisites st.selectedCourses Hk k]
    exact ⟨⟨hks, fun hkin => absurd hkin hknotin⟩, hkne⟩
  · rintro ⟨k, hkmem, ck, hfk, hmem⟩
    rw [mem_setDelete] at hkmem
    obtain ⟨hkfold, hkne⟩ := hkmem
    have hks : k ∈ st.selectedCourses :=
      cleanupFold_sub st.courses courseCode course.corequisites st.selectedCourses k hkfold
    rw [mem_setDelete,
      cleanupFold_mem_iff st.courses courseCode course.corequisites st.selectedCourses Hk d]
    refine ⟨⟨hdsel, fun _ => ?_⟩, hdne⟩
    rw [keeperExists_eq_true_iff]
    exact ⟨k, hks, hkne, ck, hfk, hmem⟩

theorem claim5_witness :
    "D" ∈ (removeCourse (addCourse (addCourse (initialState sharedCoreqCatalog) "B") "C")
        "C").selectedCourses ↔
      ∃ k ∈ (removeCourse (addCourse (addCourse (initialState sharedCoreqCatalog) "B") "C")
          "C").selectedCourses,
        ∃ ck, findCourse (addCourse (addCourse (initialState sharedCoreqCatalog) "B")
          "C").courses k = some ck ∧ "D" ∈ ck.corequisites :=
  claim5_amended_coreq_cleanup
    (addCourse (addCourse (initialState sharedCoreqCatalog) "B") "C") "C" courseC9
    (by decide) (by decide) (by decide) "D" (by decide) (by decide)

theorem addCourse_trailSel (st : PlannerState) (code : String) (course : Course)
    (hf : findCourse st.courses code = some course) :
    (addCourse st code).electiveTrailSelections =
      if strIncludes course.category "Trail" then
        if firstTrailCourses st < 2 ∧ st.electiveTrailSelections.firstTrail = none then
          { st.electiveTrailSelections with firstTrail := some course.category }
        else if 2 ≤ firstTrailCourses st ∧ thirdTrailCourses st = 0 ∧
            st.electiveTrailSelections.thirdTrail = none then
          { st.electiveTrailSelections with thirdTrail := some course.category }
        else st.electiveTrailSelections
      else st.electiveTrailSelections := by
  unfold addCourse
  rw [hf]

/-- C6 (counterexample): `threeTrailSt` is reached by adding trail
course `T1` (locking `firstTrail = "X Trail"`) and then non-trail
course `N`, whose corequisites inject two more `"X Trail"` courses
without touching the lock.  Three first-trail courses are now selected
— not exactly two — and `thirdTrail` is null, yet the next trail
addition *does* set `thirdTrail`, where the claim says the lock stays
unchanged unless the first-trail count is exactly 2. -/
theorem claim6_counterexample :
    firstTrailCourses threeTrailSt = 3 ∧
    threeTrailSt.electiveTrailSelections.firstTrail = some "X Trail" ∧
    threeTrailSt.electiveTrailSelections.thirdTrail = none ∧
    findCourse threeTrailSt.courses "T4" = some (trailX "T4") ∧
    strIncludes (trailX "T4").category "Trail" = true ∧
    (addCourse threeTrailSt "T4").electiveTrailSelections.thirdTrail = some "X Trail" := by
  decide

/-- C6 (amended): for a trail-category course, `addCourse` updates the
lock from the pre-addition counts as follows: if `firstTrail` is null
it sets `firstTrail` to the course's category; else if *at least* 2
courses of `firstTrail`'s category are selected and `thirdTrail` is
null it sets `thirdTrail` to the course's category; otherwise the lock
is unchanged.  In particular Scenario C holds: two `"Artificial
Intelligence Trail"` courses then one `"Networks Trail"` course yield
`firstTrail = "Artificial Intelligence Trail"` and
`thirdTrail = "Networks Trail"`. -/
theorem claim6_amended_trail_lock :
    (∀ (st : PlannerState) (courseCode : String) (course : Course),
      findCourse st.courses courseCode = some course →
      strIncludes course.category "Trail" = true →
      ((st.electiveTrailSelections.firstTrail = none →
        (addCourse st courseCode).electiveTrailSelections =
          { firstTrail := some course.category,
            thirdTrail := st.electiveTrailSelections.thirdTrail }) ∧
       (∀ ft, st.electiveTrailSelections.firstTrail = some ft →
        2 ≤ firstTrailCourses st →
        st.electiveTrailSelections.thirdTrail = none →
        (addCourse st courseCode).electiveTrailSelections =
          { firstTrail := some ft, thirdTrail := some course.category }) ∧
       (∀ ft, st.electiveTrailSelections.firstTrail = some ft →
        ¬(2 ≤ firstTrailCourses st ∧ st.electiveTrailSelections.thirdTrail = none) →
        (addCourse st courseCode).electiveTrailSelections = st.electiveTrailSelections))) ∧
    (scenarioCSt.electiveTrailSelections =
      { firstTrail := some "Artificial Intelligence Trail", thirdTrail := none } ∧
     (addCourse scenarioCSt "NET1").electiveTrailSelections =
      { firstTrail := some "Artificial Intelligence Trail",
        thirdTrail := some "Networks Trail" }) := by
  constructor
  · intro st courseCode course hf htrail
    rw [addCourse_trailSel st courseCode course hf, if_pos htrail]
    refine ⟨?_, ?_, ?_⟩
    · intro h1
      have hftc : firstTrailCourses st = 0 := by
        unfold firstTrailCourses
        rw [h1]
      rw [if_pos ⟨by omega, h1⟩]
    · intro ft h1 h2 h3
      have httc : thirdTrailCourses st = 0 := by
        unfold thirdTrailCourses
        rw [h3]
      rw [if_neg (by rintro ⟨hlt, -⟩; omega), if_pos ⟨h2, httc, h3⟩, ← h1]
    · intro ft h1 h2
      rw [if_neg (by rintro ⟨-, hnone⟩; rw [h1] at hnone; exact Option.noConfusion hnone),
        if_neg (by rintro ⟨ha, -, hc⟩; exact h2 ⟨ha, hc⟩)]
  · exact ⟨by decide, by decide⟩

theorem claim6_witness :
    (addCourse (initialState scenarioCCatalog) "AI1").electiveTrailSelections =
      { firstTrail := some "Artificial Intelligence Trail",
        thirdTrail := (initialState scenarioCCatalog).electiveTrailSelections.thirdTrail } :=
  (claim6_amended_trail_lock.1 (initialState scenarioCCatalog) "AI1" (aiTrail "AI1")
    (by decide) (by decide)).1 (by decide)

theorem trailLockExcludes_eq_true_iff (st : PlannerState) (course : Course) :
    trailLockExcludes st course = true ↔
      (strIncludes course.category "Trail" = true ∧
       ∃ ft, st.electiveTrailSelections.firstTrail = some ft ∧
         firstTrailCourses st < 2 ∧ course.category ≠ ft) := by
  unfold trailLockExcludes
  split_ifs with h
  · cases hft : st.electiveTrailSelections.firstTrail with
    | none => simp [h]
    | some ft₀ => simp [h, and_assoc]
  · simp [h]

/-- C7: a course of the input list passing the search, category and
type clauses is excluded by `filterCourses` exactly when its category
contains the trail marker, a first trail is locked, fewer than two
courses of that trail are selected, and the course's category differs
from the locked trail; moreover the output is an order-preserving
subsequence (sublist) of the input. -/
theorem claim7_filterCourses :
    (∀ (st : PlannerState) (courses : List Course)
      (searchTerm categoryFilter typeFilter : String) (course : Course),
      course ∈ courses →
      searchMatches searchTerm course = true →
      categoryMatches categoryFilter course = true →
      typeMatches typeFilter course = true →
      (course ∉ filterCourses st courses searchTerm categoryFilter typeFilter ↔
        (strIncludes course.category "Trail" = true ∧
         ∃ ft, st.electiveTrailSelections.firstTrail = some ft ∧
           firstTrailCourses st < 2 ∧ course.category ≠ ft))) ∧
    (∀ (st : PlannerState) (courses : List Course)
      (searchTerm categoryFilter typeFilter : String),
      (filterCourses st courses searchTerm categoryFilter typeFilter).Sublist courses) := by
  constructor
  · intro st courses s cf tf course hmem hs hc ht
    rw [← trailLockExcludes_eq_true_iff]
    unfold filterCourses
    simp only [List.mem_filter, Bool.and_eq_true, Bool.not_eq_true', hs, hc, ht, hmem,
      true_and, and_true]
    simp
  · intro st courses s cf tf
    exact List.filter_sublist courses

theorem claim7_witness :
    (netTrail ∉ filterCourses (addCourse (initialState scenarioCCatalog) "AI1")
        [netTrail] "" "" "" ↔
      (strIncludes netTrail.category "Trail" = true ∧
       ∃ ft, (addCourse (initialState scenarioCCatalog)
           "AI1").electiveTrailSelections.firstTrail = some ft ∧
         firstTrailCourses (addCourse (initialState scenarioCCatalog) "AI1") < 2 ∧
         netTrail.category ≠ ft)) ∧
    (filterCourses (addCourse (initialState scenarioCCatalog) "AI1")
      [netTrail] "" "" "").Sublist [netTrail] :=
  ⟨claim7_filterCourses.1 (addCourse (initialState scenarioCCatalog) "AI1")
      [netTrail] "" "" "" netTrail (by decide) (by decide) (by decide) (by decide),
   claim7_filterCourses.2 (addCourse (initialState scenarioCCatalog) "AI1")
      [netTrail] "" "" ""⟩

theorem sum_creditOf_setDelete (cs : List Course) (d : String) (hz : creditOf cs d = 0) :
    ∀ sel : List String,
      ((setDelete sel d).map (creditOf cs)).sum = (sel.map (creditOf cs)).sum := by
  intro sel
  induction sel with
  | nil => rfl
  | cons a t ih =>
      unfold setDelete at ih ⊢
      rw [List.filter_cons]
      by_cases had : a = d
      · rw [if_neg (by simp [had])]
        rw [List.map_cons, List.sum_cons, had, hz, ih, Nat.zero_add]
      · rw [if_pos (by simp [had])]
        rw [List.map_cons, List.sum_cons, List.map_cons, List.sum_cons, ih]

/-- C9: a corequisite code `d` with no catalog entry is still inserted
into the selection by `addCourse`; the credit sum counts each selected
code through `creditOf`, which gives such a `d` zero credits, so
deleting `d` from the selection does not change the sum; and
`removeCourse` on `d` is a total no-op (every operation of the model is
a total function, so no lookup on `d` can crash). -/
theorem claim9_dangling_coreq (st : PlannerState) (courseCode : String) (course : Course)
    (d : String)
    (hf : findCourse st.courses courseCode = some course)
    (hd : d ∈ course.corequisites)
    (hdnone : findCourse st.courses d = none) :
    d ∈ (addCourse st courseCode).selectedCourses ∧
    getSelectedCredits (addCourse st courseCode) =
      (((addCourse st courseCode).selectedCourses).map (creditOf st.courses)).sum ∧
    creditOf st.courses d = 0 ∧
    ((setDelete (addCourse st courseCode).selectedCourses d).map (creditOf st.courses)).sum =
      (((addCourse st courseCode).selectedCourses).map (creditOf st.courses)).sum ∧
    removeCourse (addCourse st courseCode) d = addCourse st courseCode := by
  have hz : creditOf st.courses d = 0 := by
    unfold creditOf
    rw [hdnone]
  refine ⟨?_, ?_, hz, ?_, ?_⟩
  · rw [addCourse_sel st courseCode course hf, mem_setAdd, mem_coreqFold]
    exact Or.inl (Or.inr hd)
  · rw [getSelectedCredits_eq, addCourse_courses]
  · exact sum_creditOf_setDelete st.courses d hz _
  · have hn : findCourse (addCourse st courseCode).courses d = none := by
      rw [addCourse_courses]
      exact hdnone
    unfold removeCourse
    rw [hn]

theorem claim9_witness :
    "GHOST" ∈ (addCourse (initialState danglingCatalog) "X").selectedCourses ∧
    getSelectedCredits (addCourse (initialState danglingCatalog) "X") =
      (((addCourse (initialState danglingCatalog) "X").selectedCourses).map
        (creditOf (initialState danglingCatalog).courses)).sum ∧
    creditOf (initialState danglingCatalog).courses "GHOST" = 0 ∧
    ((setDelete (addCourse (initialState danglingCatalog) "X").selectedCourses "GHOST").map
        (creditOf (initialState danglingCatalog).courses)).sum =
      (((addCourse (initialState danglingCatalog) "X").selectedCourses).map
        (creditOf (initialState danglingCatalog).courses)).sum ∧
    removeCourse (addCourse (initialState danglingCatalog) "X") "GHOST" =
      addCourse (initialState danglingCatalog) "X" :=
  claim9_dangling_coreq (initialState danglingCatalog) "X" courseDangling "GHOST"
    (by decide) (by decide) (by decide)

/-- C10: `removeCourse` never checks that its argument is selected:
for a catalog course `C` whose code is *not* selected, it still removes
every selected corequisite `d` of `C` that no selected course lists as
a corequisite, and it leaves membership of every non-corequisite code
unchanged. -/
theorem claim10_remove_unselected (st : PlannerState) (courseCode : String) (course : Course)
    (hf : findCourse st.courses courseCode = some course)
    (hnot : courseCode ∉ st.selectedCourses) :
    (∀ d ∈ course.corequisites,
      (∀ k ∈ st.selectedCourses, listsCoreq st.courses k d = false) →
      d ∉ (removeCourse st courseCode).selectedCourses) ∧
    (∀ x, x ∉ course.corequisites →
      (x ∈ (removeCourse st courseCode).selectedCourses ↔ x ∈ st.selectedCourses)) := by
  constructor
  · intro d hd H
    have hkf : keeperExists st.courses courseCode st.selectedCourses d = false := by
      by_contra hne
      rw [Bool.not_eq_false, keeperExists_eq_true_iff] at hne
      obtain ⟨k, hks, hkne, ck, hfk, hmem⟩ := hne
      have hk := H k hks
      have htrue : listsCoreq st.courses k d = true :=
        (listsCoreq_eq_true_iff st.courses k d).mpr ⟨ck, hfk, hmem⟩
      rw [htrue] at hk
      exact absurd hk (by simp)
    rw [removeCourse_sel st courseCode course hf]
    intro hmem
    rw [mem_setDelete] at hmem
    exact cleanupFold_not_mem_of_no_keeper st.courses courseCode course.corequisites
      st.selectedCourses d hd hkf hmem.1
  · intro x hx
    rw [removeCourse_sel st courseCode course hf, mem_setDelete,
      mem_cleanupFold_of_not_mem st.courses courseCode course.corequisites
        st.selectedCourses x hx]
    constructor
    · exact fun h => h.1
    · exact fun hxs => ⟨hxs, fun hxc => hnot (hxc ▸ hxs)⟩

theorem claim10_witness :
    ("Q" ∉ (removeCourse (addCourse (initialState pqCatalog) "Q") "P").selectedCourses) ∧
    ("Z" ∈ (removeCourse (addCourse (initialState pqCatalog) "Q") "P").selectedCourses ↔
      "Z" ∈ (addCourse (initialState pqCatalog) "Q").selectedCourses) :=
  ⟨(claim10_remove_unselected (addCourse (initialState pqCatalog) "Q") "P" courseP10
      (by decide) (by decide)).1 "Q" (by decide) (by decide),
   (claim10_remove_unselected (addCourse (initialState pqCatalog) "Q") "P" courseP10
      (by decide) (by decide)).2 "Z" (by decide)⟩
